import Mathlib

set_option maxRecDepth 8000

/-!
Shallow embedding of the streaming ASR backend in `WhisperBackend.cpp`
(namespace `asr`): the chunk accumulator (`processAudio`), the worker-side
chunk processing (`processAudioChunk` and its helpers), and the model
lifecycle (`setLanguage`, `WhisperBackendBuilder::build`).

Audio samples are modelled as integers (silence is `0`); the external
whisper engine is an opaque function from prepared audio and an optional
prompt-token list to an optional list of decoded segments (`none` models a
failing `whisper_full` call).
-/

namespace Asr

/-- Languages supported by the backend (WhisperBackend.h). -/
inductive Language where
  | English
  | Korean
deriving DecidableEq

/-- Speech segmentation tags supplied with each audio buffer (WhisperBackend.h). -/
inductive SpeechTag where
  | Start
  | Continue
  | End
deriving DecidableEq

/-- Result kinds delivered to the callback (WhisperBackend.h). -/
inductive ResultTag where
  | Partial
  | Final
  | Error
deriving DecidableEq

/-- One normalized audio sample (a float in the source); silence is `0`. -/
abbrev Sample := Int

/-- One whisper token id. -/
abbrev Token := Nat

/-- State of `WhisperBackend::Impl` (fields, WhisperBackend.cpp lines 534-572).
`mCtx` is the opaque engine handle (`none` = not loaded), `mAudioQueue` the
FIFO work queue, `mErrLog` the messages printed to `std::cerr`. -/
structure ImplState where
  mBaseModelPath : String
  mCustomLanguageModels : Language → Option String
  mUseCustomModels : Bool
  mCurrentLanguage : Language
  mCurrentLanguageCode : String
  mRunning : Bool
  mCtx : Option Nat
  mSampleRate : Nat
  mLastPartialResult : String
  mPromptTokens : List Token
  mAudioBuffer : List Sample
  mKeepSamples : Nat
  mInSpeechSequence : Bool
  mChunkBuffer : List Sample
  mFixedChunkMs : Nat
  mFixedChunkSamples : Nat
  mCurrentlyAccumulating : Bool
  mAudioQueue : List (List Sample × SpeechTag)
  mErrLog : List String

/-- The `while (mChunkBuffer.size() >= mFixedChunkSamples)` slicing loop of the
`Continue` branch of `processAudio` (WhisperBackend.cpp lines 98-105): returns
the extracted fixed-size windows in order and the remaining buffer. -/
def drainChunks (w : Nat) (buf : List Sample) : List (List Sample) × List Sample :=
  if _h : 0 < w ∧ w ≤ buf.length then
    let r := drainChunks w (buf.drop w)
    (buf.take w :: r.1, r.2)
  else
    ([], buf)
termination_by buf.length
decreasing_by
  simp only [List.length_drop]
  omega

/-- `WhisperBackend::Impl::processAudio` (WhisperBackend.cpp lines 63-134):
the producer-side chunk accumulator, which appends fixed-size windows to the
work queue. -/
def processAudio (s : ImplState) (audio : List Sample) (tag : SpeechTag) : ImplState :=
  if s.mRunning = false ∨ s.mCtx = none then s
  else
    match tag with
    | SpeechTag.Start =>
      let s1 := { s with mChunkBuffer := [], mCurrentlyAccumulating := true }
      let buf := audio
      if s1.mFixedChunkSamples ≤ buf.length then
        { s1 with
          mAudioQueue := s1.mAudioQueue ++ [(buf.take s1.mFixedChunkSamples, SpeechTag.Start)],
          mChunkBuffer := buf.drop s1.mFixedChunkSamples }
      else
        { s1 with mChunkBuffer := buf }
    | SpeechTag.Continue =>
      if s.mCurrentlyAccumulating then
        let buf := s.mChunkBuffer ++ audio
        let r := drainChunks s.mFixedChunkSamples buf
        { s with
          mAudioQueue := s.mAudioQueue ++ r.1.map (fun c => (c, SpeechTag.Continue)),
          mChunkBuffer := r.2 }
      else s
    | SpeechTag.End =>
      let buf := s.mChunkBuffer ++ audio
      if buf = [] then
        { s with
          mAudioQueue := s.mAudioQueue ++ [([], SpeechTag.End)],
          mChunkBuffer := [], mCurrentlyAccumulating := false }
      else
        let padded :=
          if buf.length < s.mFixedChunkSamples then
            buf ++ List.replicate (s.mFixedChunkSamples - buf.length) 0
          else buf
        { s with
          mAudioQueue := s.mAudioQueue ++ [(padded, SpeechTag.End)],
          mChunkBuffer := [], mCurrentlyAccumulating := false }

/-- Fold a sequence of `processAudio` calls over a state. -/
def runCalls (s : ImplState) (calls : List (List Sample × SpeechTag)) : ImplState :=
  calls.foldl (fun t c => processAudio t c.1 c.2) s

/-- Size discipline of an enqueued chunk: `Start`/`Continue` chunks have exactly
the fixed window length; `End` chunks are empty or at least one window long. -/
def goodChunk (w : Nat) (c : List Sample × SpeechTag) : Prop :=
  match c.2 with
  | SpeechTag.End => c.1 = [] ∨ w ≤ c.1.length
  | _ => c.1.length = w

/-- The state of a freshly constructed and started backend: the field values
set by the `Impl` constructor (WhisperBackend.cpp lines 38-54) with a loaded
engine handle and the worker running (`start`, lines 136-143). -/
def readyImpl : ImplState :=
  { mBaseModelPath := ""
    mCustomLanguageModels := fun _ => some "m.bin"
    mUseCustomModels := true
    mCurrentLanguage := Language.English
    mCurrentLanguageCode := "en"
    mRunning := true
    mCtx := some 1
    mSampleRate := 16000
    mLastPartialResult := ""
    mPromptTokens := []
    mAudioBuffer := []
    mKeepSamples := 16000 * 200 / 1000
    mInSpeechSequence := false
    mChunkBuffer := []
    mFixedChunkMs := 300
    mFixedChunkSamples := 16000 * 300 / 1000
    mCurrentlyAccumulating := false
    mAudioQueue := []
    mErrLog := [] }

/-- One decoded segment returned by a successful engine call: its text and its
token ids (`whisper_full_get_segment_text` / `whisper_full_get_token_id`). -/
abbrev Segment := String × List Token

/-- The opaque inference engine (`whisper_full`): takes the prepared audio and
the prompt-token context (`none` models `no_context = true` with no prompt
tokens), and returns the decoded segments, or `none` on failure. -/
abbrev Engine := List Sample → Option (List Token) → Option (List Segment)

/-- One recorded invocation of the engine: the audio and prompt it was given. -/
structure EngineCall where
  audio : List Sample
  prompt : Option (List Token)
deriving DecidableEq

/-- `WhisperBackend::Impl::prepareAudioWithContext` (WhisperBackend.cpp lines
361-422): returns the audio handed to the engine and the updated state
(`mAudioBuffer`, `mInSpeechSequence`). -/
def prepareAudioWithContext (s : ImplState) (newAudio : List Sample) (tag : SpeechTag) :
    List Sample × ImplState :=
  if tag = SpeechTag.Start then
    let s1 := { s with mAudioBuffer := [], mInSpeechSequence := true }
    let proc := newAudio
    (proc, if proc = [] then s1 else { s1 with mAudioBuffer := proc })
  else if tag = SpeechTag.Continue ∧ s.mInSpeechSequence then
    if s.mAudioBuffer = [] then
      let proc := newAudio
      (proc, if proc = [] then s else { s with mAudioBuffer := proc })
    else
      let takeN := min s.mAudioBuffer.length s.mKeepSamples
      let proc := s.mAudioBuffer.drop (s.mAudioBuffer.length - takeN) ++ newAudio
      (proc, { s with mAudioBuffer := proc })
  else
    (newAudio, s)

/-- `WhisperBackend::Impl::setupContextForSpeechTag` (WhisperBackend.cpp lines
425-455): the prompt-token context handed to the engine (`none` models
`no_context = true`, `prompt_tokens = nullptr`). -/
def setupContextForSpeechTag (s : ImplState) (tag : SpeechTag) : Option (List Token) :=
  if tag = SpeechTag.Start then none
  else if tag = SpeechTag.Continue ∧ s.mInSpeechSequence then
    if s.mPromptTokens ≠ [] then some s.mPromptTokens else none
  else
    if s.mPromptTokens ≠ [] ∧ s.mInSpeechSequence then some s.mPromptTokens else none

/-- The characters stripped from segment texts (WhisperBackend.cpp lines
469-470): space, tab, newline, carriage return. -/
def isStripChar (c : Char) : Bool :=
  c = ' ' || c = '\t' || c = '\n' || c = '\r'

/-- Leading/trailing whitespace removal applied to each segment text
(WhisperBackend.cpp lines 467-470). -/
def trimSegmentText (t : String) : String :=
  String.mk (((t.data.dropWhile isStripChar).reverse.dropWhile isStripChar).reverse)

/-- The segment-text collection loop of `extractTextAndUpdateContext`
(WhisperBackend.cpp lines 462-479): trimmed non-empty segment texts joined
with single spaces. -/
def combinedTextOfSegments (segs : List Segment) : String :=
  segs.foldl
    (fun acc g =>
      let ts := trimSegmentText g.1
      if ts = "" then acc
      else if acc = "" then ts
      else acc ++ " " ++ ts)
    ""

/-- `WhisperBackend::Impl::extractTextAndUpdateContext` (WhisperBackend.cpp
lines 458-493), applied to the segments of a successful engine call: returns
the combined text and the state with `mPromptTokens` extended. -/
def extractTextAndUpdateContext (s : ImplState) (segs : List Segment) :
    String × ImplState :=
  let t := combinedTextOfSegments segs
  if s.mInSpeechSequence ∧ 0 < segs.length then
    (t, { s with mPromptTokens := segs.foldl (fun acc g => acc ++ g.2) s.mPromptTokens })
  else
    (t, s)

/-- Output of processing one fixed-size chunk: the combined text, the updated
state, the engine invocations made, and the callback events emitted. -/
structure FixedOut where
  text : String
  state : ImplState
  calls : List EngineCall
  events : List (ResultTag × String)

/-- `WhisperBackend::Impl::processFixedChunk` (WhisperBackend.cpp lines
341-358): prepare audio, set up the prompt context, invoke the engine; on
success extract text and tokens, on failure emit an Error callback. -/
def processFixedChunk (eng : Engine) (s : ImplState) (audioData : List Sample)
    (tag : SpeechTag) : FixedOut :=
  let p := prepareAudioWithContext s audioData tag
  let prompt := setupContextForSpeechTag p.2 tag
  match eng p.1 prompt with
  | some segs =>
    let e := extractTextAndUpdateContext p.2 segs
    ⟨e.1, e.2, [⟨p.1, prompt⟩], []⟩
  | none =>
    ⟨"", p.2, [⟨p.1, prompt⟩], [(ResultTag.Error, "Failed to process fixed audio chunk")]⟩

/-- `WhisperBackend::Impl::handleSpeechTagContext` (WhisperBackend.cpp lines
496-532): per-tag callback emission and session state management; returns the
updated state and the callback events emitted. -/
def handleSpeechTagContext (s : ImplState) (tag : SpeechTag) (t : String) :
    ImplState × List (ResultTag × String) :=
  match tag with
  | SpeechTag.Start =>
    let s1 := { s with mPromptTokens := [], mLastPartialResult := "", mInSpeechSequence := true }
    if t ≠ "" then
      ({ s1 with mLastPartialResult := t }, [(ResultTag.Partial, t)])
    else
      (s1, [])
  | SpeechTag.Continue =>
    if t ≠ "" ∧ t ≠ s.mLastPartialResult then
      ({ s with mLastPartialResult := t }, [(ResultTag.Partial, t)])
    else
      (s, [])
  | SpeechTag.End =>
    ({ s with
        mPromptTokens := [], mAudioBuffer := [], mChunkBuffer := [],
        mLastPartialResult := "", mInSpeechSequence := false,
        mCurrentlyAccumulating := false },
     [(ResultTag.Final, t)])

/-- Output of the worker processing a dequeued chunk (or a list of chunks). -/
structure StepOut where
  state : ImplState
  calls : List EngineCall
  events : List (ResultTag × String)

/-- The combined text produced for a chunk: empty when the chunk carries no
audio, otherwise the text returned by `processFixedChunk`
(WhisperBackend.cpp lines 329-334). -/
def chunkText (eng : Engine) (s : ImplState) (audio : List Sample) (tag : SpeechTag) : String :=
  if audio = [] then "" else (processFixedChunk eng s audio tag).text

/-- `WhisperBackend::Impl::processAudioChunk` (WhisperBackend.cpp lines
319-338): skip empty non-End chunks, run the fixed chunk through the engine
when audio is present, then apply the per-tag context handling. -/
def processAudioChunk (eng : Engine) (s : ImplState) (audio : List Sample)
    (tag : SpeechTag) : StepOut :=
  if s.mCtx = none then ⟨s, [], []⟩
  else if audio = [] ∧ tag ≠ SpeechTag.End then ⟨s, [], []⟩
  else
    let fx := if audio = [] then ⟨"", s, [], []⟩ else processFixedChunk eng s audio tag
    let hc := handleSpeechTagContext fx.state tag fx.text
    ⟨hc.1, fx.calls, fx.events ++ hc.2⟩

/-- The worker loop body applied to a list of dequeued chunks in FIFO order
(WhisperBackend.cpp lines 291-317): chunks are processed one after the other,
with engine calls and callback events concatenated in order. -/
def runWorker (eng : Engine) (s : ImplState) : List (List Sample × SpeechTag) → StepOut
  | [] => ⟨s, [], []⟩
  | c :: cs =>
    let o := processAudioChunk eng s c.1 c.2
    let r := runWorker eng o.state cs
    ⟨r.state, o.calls ++ r.calls, o.events ++ r.events⟩

/-- The Partial events among a list of callback events. -/
def partialEvents (evs : List (ResultTag × String)) : List (ResultTag × String) :=
  evs.filter (fun e => e.1 = ResultTag.Partial)

/-- The Final events among a list of callback events. -/
def finalEvents (evs : List (ResultTag × String)) : List (ResultTag × String) :=
  evs.filter (fun e => e.1 = ResultTag.Final)

/-- Number of Partial callbacks carrying exactly the text `t`. -/
def countPartialWith (t : String) (evs : List (ResultTag × String)) : Nat :=
  (evs.filter (fun e => e = (ResultTag.Partial, t))).length

/-- `WhisperBackend::Impl::languageToString` (WhisperBackend.cpp lines 195-201). -/
def languageToString (lang : Language) : String :=
  match lang with
  | Language.English => "English"
  | Language.Korean => "Korean"

/-- `WhisperBackend::Impl::languageToCode` (WhisperBackend.cpp lines 203-209). -/
def languageToCode (lang : Language) : String :=
  match lang with
  | Language.English => "en"
  | Language.Korean => "ko"

/-- The per-language model-name suffix of `buildModelPath`
(WhisperBackend.cpp lines 223-235). -/
def languageSuffix (lang : Language) : String :=
  match lang with
  | Language.English => ".en"
  | Language.Korean => ""

/-- The characters of the substring searched by
`model_path.find(".bin")` (WhisperBackend.cpp line 239). -/
def dotBin : List Char := ['.', 'b', 'i', 'n']

/-- Replace the first occurrence of `".bin"` in `cs` with `repl`
(`std::string::find` + `replace`, WhisperBackend.cpp lines 239-241);
`none` when `".bin"` does not occur. -/
def replaceFirstBin : List Char → List Char → Option (List Char)
  | [], _ => none
  | c :: rest, repl =>
    if (c :: rest).take 4 = dotBin then some (repl ++ (c :: rest).drop 4)
    else
      match replaceFirstBin rest repl with
      | some l => some (c :: l)
      | none => none

/-- The base-path branch of `buildModelPath` (WhisperBackend.cpp lines
237-246): replace `".bin"` with the language suffix plus `".bin"`, or append
both when `".bin"` does not occur. -/
def basePathModel (path : String) (suffix : String) : String :=
  match replaceFirstBin path.data (suffix.data ++ dotBin) with
  | some l => String.mk l
  | none => path ++ suffix ++ ".bin"

/-- `WhisperBackend::Impl::buildModelPath` (WhisperBackend.cpp lines 211-247):
resolves a language to a model-file path; throws (`Except.error`) when custom
models are used and no model is configured for the language. -/
def buildModelPath (s : ImplState) (lang : Language) : Except String String :=
  if s.mUseCustomModels then
    match s.mCustomLanguageModels lang with
    | some p => Except.ok p
    | none => Except.error ("No model configured for language: " ++ languageToString lang)
  else
    Except.ok (basePathModel s.mBaseModelPath (languageSuffix lang))

/-- The external environment of the model lifecycle: file-existence checks
(`std::ifstream ... good()`) and engine instantiation
(`whisper_init_from_file_with_params`, `none` = failure). -/
structure Env where
  fileExists : String → Bool
  whisperInit : String → Option Nat

/-- `WhisperBackend::Impl::initializeWhisper` (WhisperBackend.cpp lines
249-289): resolve the model path, check the file, instantiate the engine and
set the language parameter; returns `false` (with a `std::cerr` message
appended to `mErrLog`) on failure. -/
def initWhisper (env : Env) (s : ImplState) : Except String (Bool × ImplState) :=
  match buildModelPath s s.mCurrentLanguage with
  | Except.error e => Except.error e
  | Except.ok path =>
    if env.fileExists path = false then
      Except.ok (false,
        { s with mErrLog := s.mErrLog ++
            ["Error: Could not find " ++ languageToString s.mCurrentLanguage ++
             " model file: " ++ path] })
    else
      match env.whisperInit path with
      | none =>
        Except.ok (false,
          { s with mErrLog := s.mErrLog ++
              ["Error: Failed to initialize whisper context from " ++ path] })
      | some h =>
        Except.ok (true,
          { s with mCtx := some h,
                   mCurrentLanguageCode := languageToCode s.mCurrentLanguage })

/-- `WhisperBackend::Impl::start` (WhisperBackend.cpp lines 136-143): starts
the worker thread (modelled by `mRunning := true`) unless already running or
no engine is loaded. -/
def startImpl (s : ImplState) : ImplState :=
  if s.mRunning = true ∨ s.mCtx = none then s else { s with mRunning := true }

/-- `WhisperBackend::Impl::stop` (WhisperBackend.cpp lines 145-154): stops and
joins the worker thread (modelled by `mRunning := false`). -/
def stopImpl (s : ImplState) : ImplState :=
  { s with mRunning := false }

/-- `WhisperBackend::Impl::setLanguage` (WhisperBackend.cpp lines 156-187):
no-op success on the current language; otherwise stop the worker, free the
engine, update the language, reload, and restart the worker only on success. -/
def setLanguage (env : Env) (s : ImplState) (lang : Language) :
    Except String (Bool × ImplState) :=
  if lang = s.mCurrentLanguage then
    Except.ok (true, s)
  else
    let wasRunning := s.mRunning
    let s1 := stopImpl s
    let s2 := { s1 with mCtx := none }
    let s3 := { s2 with mCurrentLanguage := lang }
    match initWhisper env s3 with
    | Except.error e => Except.error e
    | Except.ok (ok, s4) =>
      if ok = false then
        Except.ok (false,
          { s4 with mErrLog := s4.mErrLog ++
              ["Error: Failed to switch to " ++ languageToString lang ++ " model"] })
      else
        Except.ok (true, if wasRunning then startImpl s4 else s4)

/-- Configuration accumulated by `WhisperBackendBuilder`
(WhisperBackend.cpp lines 604-635). -/
structure BuilderState where
  hasCallback : Bool
  initialLanguage : Language
  languageModels : Language → Option String

/-- `languageModels_.empty()` for the two-valued `Language` type. -/
def modelsEmpty (m : Language → Option String) : Bool :=
  (m Language.English).isNone && (m Language.Korean).isNone

/-- The field values set by the custom-models `Impl` constructor
(WhisperBackend.cpp lines 38-54), before `initializeWhisper` runs. -/
def mkImplFromModels (m : Language → Option String) (lang : Language) : ImplState :=
  { mBaseModelPath := ""
    mCustomLanguageModels := m
    mUseCustomModels := true
    mCurrentLanguage := lang
    mCurrentLanguageCode := ""
    mRunning := false
    mCtx := none
    mSampleRate := 16000
    mLastPartialResult := ""
    mPromptTokens := []
    mAudioBuffer := []
    mKeepSamples := 16000 * 200 / 1000
    mInSpeechSequence := false
    mChunkBuffer := []
    mFixedChunkMs := 300
    mFixedChunkSamples := 16000 * 300 / 1000
    mCurrentlyAccumulating := false
    mAudioQueue := []
    mErrLog := [] }

/-- The custom-models `Impl` constructor (WhisperBackend.cpp lines 38-54):
initializes the fields and runs `initializeWhisper`, whose boolean result is
ignored (a load failure leaves `mCtx` unset without throwing). -/
def implConstruct (env : Env) (m : Language → Option String) (lang : Language) :
    Except String ImplState :=
  match initWhisper env (mkImplFromModels m lang) with
  | Except.error e => Except.error e
  | Except.ok (_, s) => Except.ok s

/-- `WhisperBackendBuilder::build` followed by the `WhisperBackend` builder
constructor (WhisperBackend.cpp lines 637-652 and 581-585): validates the
configuration, constructs the `Impl`, and calls `start`. -/
def build (env : Env) (b : BuilderState) : Except String ImplState :=
  if b.hasCallback = false then
    Except.error "Callback must be set before building WhisperBackend"
  else if modelsEmpty b.languageModels = true then
    Except.error "At least one model must be configured before building WhisperBackend"
  else if b.languageModels b.initialLanguage = none then
    Except.error "No model configured for initial language"
  else
    match implConstruct env b.languageModels b.initialLanguage with
    | Except.error e => Except.error e
    | Except.ok s => Except.ok (startImpl s)

/-! ## Helper lemmas -/

/-- Every window sliced off by the `Continue` draining loop has exactly the
fixed length. -/
lemma drainChunks_sizes (w : Nat) (buf : List Sample) :
    ∀ l ∈ (drainChunks w buf).1, l.length = w := by
  rw [drainChunks]
  split
  · rename_i h
    intro l hl
    rcases List.mem_cons.mp hl with rfl | hl
    · rw [List.length_take]; omega
    · exact drainChunks_sizes w (buf.drop w) l hl
  · intro l hl
    simp at hl
termination_by buf.length
decreasing_by simp only [List.length_drop]; omega

/-- The chunk payload enqueued by the `End` branch of `processAudio` when the
accumulated buffer is non-empty: padded with silence up to the fixed window
size when short, left as is otherwise. -/
def endPayload (s : ImplState) (audio : List Sample) : List Sample :=
  let buf := s.mChunkBuffer ++ audio
  if buf.length < s.mFixedChunkSamples then
    buf ++ List.replicate (s.mFixedChunkSamples - buf.length) 0
  else buf

/-- Characterization of the queue after an `End` call with a non-empty
accumulated buffer. -/
lemma processAudio_end_queue (s : ImplState) (audio : List Sample)
    (hr : s.mRunning = true) (hc : s.mCtx ≠ none)
    (hne : s.mChunkBuffer ++ audio ≠ []) :
    (processAudio s audio SpeechTag.End).mAudioQueue
      = s.mAudioQueue ++ [(endPayload s audio, SpeechTag.End)] := by
  have h0 : ¬ (s.mRunning = false ∨ s.mCtx = none) := by
    rintro (h | h)
    · rw [hr] at h; exact Bool.noConfusion h
    · exact hc h
  rw [processAudio, if_neg h0]
  dsimp only
  rw [if_neg hne]
  rfl

/-- The non-empty `End` payload has exactly `max` of the window size and the
accumulated length. -/
lemma endPayload_length (s : ImplState) (audio : List Sample) :
    (endPayload s audio).length
      = max s.mFixedChunkSamples (s.mChunkBuffer ++ audio).length := by
  simp only [endPayload]
  split
  · rename_i h
    rw [List.length_append, List.length_replicate]
    omega
  · rename_i h
    omega

/-- One `processAudio` call preserves the fixed window size and the chunk-size
discipline of every queued chunk. -/
lemma processAudio_goodChunks (s : ImplState) (audio : List Sample) (tag : SpeechTag)
    (hinv : ∀ c ∈ s.mAudioQueue, goodChunk s.mFixedChunkSamples c) :
    (processAudio s audio tag).mFixedChunkSamples = s.mFixedChunkSamples ∧
    ∀ c ∈ (processAudio s audio tag).mAudioQueue, goodChunk s.mFixedChunkSamples c := by
  rw [processAudio.eq_def]
  split
  · exact ⟨rfl, hinv⟩
  · match tag with
    | SpeechTag.Start =>
      dsimp only
      split
      · rename_i hle
        refine ⟨rfl, ?_⟩
        intro c hc
        rcases List.mem_append.mp hc with hc | hc
        · exact hinv c hc
        · rcases List.mem_singleton.mp hc with rfl
          show (audio.take s.mFixedChunkSamples).length = s.mFixedChunkSamples
          rw [List.length_take]
          omega
      · exact ⟨rfl, hinv⟩
    | SpeechTag.Continue =>
      dsimp only
      split
      · refine ⟨rfl, ?_⟩
        intro c hc
        rcases List.mem_append.mp hc with hc | hc
        · exact hinv c hc
        · rcases List.mem_map.mp hc with ⟨l, hl, rfl⟩
          show l.length = s.mFixedChunkSamples
          exact drainChunks_sizes s.mFixedChunkSamples (s.mChunkBuffer ++ audio) l hl
      · exact ⟨rfl, hinv⟩
    | SpeechTag.End =>
      dsimp only
      split
      · refine ⟨rfl, ?_⟩
        intro c hc
        rcases List.mem_append.mp hc with hc | hc
        · exact hinv c hc
        · rcases List.mem_singleton.mp hc with rfl
          exact Or.inl rfl
      · refine ⟨rfl, ?_⟩
        intro c hc
        rcases List.mem_append.mp hc with hc | hc
        · exact hinv c hc
        · rcases List.mem_singleton.mp hc with rfl
          refine Or.inr ?_
          dsimp only
          split
          · rename_i h
            rw [List.length_append, List.length_replicate]
            omega
          · rename_i h
            omega

/-- The chunk-size discipline holds along any sequence of `processAudio`
calls. -/
lemma runCalls_goodChunks (calls : List (List Sample × SpeechTag)) (s : ImplState)
    (w : Nat) (hw : s.mFixedChunkSamples = w)
    (hinv : ∀ c ∈ s.mAudioQueue, goodChunk w c) :
    (runCalls s calls).mFixedChunkSamples = w ∧
    ∀ c ∈ (runCalls s calls).mAudioQueue, goodChunk w c := by
  induction calls generalizing s with
  | nil => exact ⟨hw, hinv⟩
  | cons c cs ih =>
    have h := processAudio_goodChunks s c.1 c.2 (by rw [hw]; exact hinv)
    exact ih (processAudio s c.1 c.2) (h.1.trans hw) (by rw [← hw]; exact h.2)

/-! ## Claim C1 -/

/-- Claim C1 (corrected), counterexample to the original statement: starting
a session with no audio and then calling `processAudio` with tag `End` and
4801 samples (one sample more than the 4800-sample window) enqueues an `End`
chunk of 4801 samples — neither exactly `mFixedChunkSamples` nor empty — so
the claimed size discipline fails precisely when the audio supplied with the
`End` call makes the accumulation buffer exceed one window. -/
theorem enqueued_chunk_sizes_cex :
    ((processAudio (processAudio readyImpl [] SpeechTag.Start)
        (List.replicate 4801 0) SpeechTag.End).mAudioQueue.map
      (fun c => (c.1.length, c.2))) = [(4801, SpeechTag.End)] ∧
    4801 ≠ 4800 ∧ 4801 ≠ 0 := by
  refine ⟨?_, by decide, by decide⟩
  have hbuf : (processAudio readyImpl [] SpeechTag.Start).mChunkBuffer = [] := rfl
  rw [processAudio_end_queue _ _ rfl (by decide) ?hne]
  case hne =>
    rw [hbuf, List.nil_append]
    intro h
    have h2 := congrArg List.length h
    rw [List.length_replicate, List.length_nil] at h2
    exact absurd h2 (by decide)
  rw [show (processAudio readyImpl [] SpeechTag.Start).mAudioQueue = [] from rfl,
      List.nil_append, List.map_cons, List.map_nil, endPayload_length, hbuf,
      List.nil_append, List.length_replicate,
      show (processAudio readyImpl [] SpeechTag.Start).mFixedChunkSamples = 4800 from rfl]
  decide

/-- Claim C1 (amended): along every sequence of `processAudio` calls from the
ready state, every chunk enqueued with tag `Start` or `Continue` has exactly
`mFixedChunkSamples` (4800) samples, and every chunk enqueued with tag `End`
is either empty or at least one window long; a non-empty `End` enqueue has
exactly `max mFixedChunkSamples accumulatedLength` samples — so it is exactly
one window (right-padded with silence) only when the accumulated audio does
not exceed one window, and longer otherwise. -/
theorem enqueued_chunk_sizes :
    (∀ calls, ∀ c ∈ (runCalls readyImpl calls).mAudioQueue, goodChunk 4800 c) ∧
    (∀ (s : ImplState) (audio : List Sample),
      s.mRunning = true → s.mCtx ≠ none → s.mChunkBuffer ++ audio ≠ [] →
      ∃ payload,
        (processAudio s audio SpeechTag.End).mAudioQueue
          = s.mAudioQueue ++ [(payload, SpeechTag.End)] ∧
        payload.length = max s.mFixedChunkSamples (s.mChunkBuffer ++ audio).length) := by
  constructor
  · intro calls
    refine (runCalls_goodChunks calls readyImpl 4800 rfl ?_).2
    intro c hc
    exact absurd hc (List.not_mem_nil c)
  · intro s audio hr hc hne
    exact ⟨endPayload s audio, processAudio_end_queue s audio hr hc hne,
      endPayload_length s audio⟩

/-- Witness for `enqueued_chunk_sizes` at concrete inputs. -/
theorem enqueued_chunk_sizes_wit :
    (∀ c ∈ (runCalls readyImpl []).mAudioQueue, goodChunk 4800 c) ∧
    ∃ payload,
      (processAudio readyImpl [5] SpeechTag.End).mAudioQueue
        = readyImpl.mAudioQueue ++ [(payload, SpeechTag.End)] ∧
      payload.length
        = max readyImpl.mFixedChunkSamples (readyImpl.mChunkBuffer ++ [5]).length :=
  ⟨enqueued_chunk_sizes.1 [],
   enqueued_chunk_sizes.2 readyImpl [5] rfl (by decide) (by decide)⟩

/-! ## Worker-side helper lemmas -/

lemma partialEvents_append (xs ys : List (ResultTag × String)) :
    partialEvents (xs ++ ys) = partialEvents xs ++ partialEvents ys :=
  List.filter_append xs ys

lemma finalEvents_append (xs ys : List (ResultTag × String)) :
    finalEvents (xs ++ ys) = finalEvents xs ++ finalEvents ys :=
  List.filter_append xs ys

/-- A fixed-chunk engine invocation emits no Partial and no Final callback
itself: its only possible event is the Error callback. -/
lemma processFixedChunk_events (eng : Engine) (s : ImplState) (a : List Sample)
    (tag : SpeechTag) :
    (processFixedChunk eng s a tag).events = [] ∨
    (processFixedChunk eng s a tag).events
      = [(ResultTag.Error, "Failed to process fixed audio chunk")] := by
  simp only [processFixedChunk]
  cases eng (prepareAudioWithContext s a tag).1
      (setupContextForSpeechTag (prepareAudioWithContext s a tag).2 tag) with
  | none => right; rfl
  | some segs => left; rfl

lemma partialEvents_fixed (eng : Engine) (s : ImplState) (a : List Sample)
    (tag : SpeechTag) :
    partialEvents (processFixedChunk eng s a tag).events = [] := by
  rcases processFixedChunk_events eng s a tag with h | h <;>
    rw [h] <;> rfl

lemma finalEvents_fixed (eng : Engine) (s : ImplState) (a : List Sample)
    (tag : SpeechTag) :
    finalEvents (processFixedChunk eng s a tag).events = [] := by
  rcases processFixedChunk_events eng s a tag with h | h <;>
    rw [h] <;> rfl

/-- The one-chunk worker step, unfolded for a loaded engine on a chunk that is
not skipped. -/
lemma processAudioChunk_unfold (eng : Engine) (s : ImplState) (audio : List Sample)
    (tag : SpeechTag) (hc : s.mCtx ≠ none) (h2 : ¬ (audio = [] ∧ tag ≠ SpeechTag.End)) :
    processAudioChunk eng s audio tag =
      ⟨(handleSpeechTagContext
          (if audio = [] then s else (processFixedChunk eng s audio tag).state) tag
          (chunkText eng s audio tag)).1,
        (if audio = [] then [] else (processFixedChunk eng s audio tag).calls),
        (if audio = [] then [] else (processFixedChunk eng s audio tag).events) ++
          (handleSpeechTagContext
            (if audio = [] then s else (processFixedChunk eng s audio tag).state) tag
            (chunkText eng s audio tag)).2⟩ := by
  rw [processAudioChunk, if_neg hc, if_neg h2, chunkText]
  by_cases ha : audio = [] <;> simp [ha]

lemma handle_start_events (s : ImplState) (t : String) :
    (handleSpeechTagContext s SpeechTag.Start t).2
      = if t ≠ "" then [(ResultTag.Partial, t)] else [] := by
  simp only [handleSpeechTagContext]
  split <;> rfl

lemma handle_continue_events (s : ImplState) (t : String) :
    (handleSpeechTagContext s SpeechTag.Continue t).2
      = if t ≠ "" ∧ t ≠ s.mLastPartialResult then [(ResultTag.Partial, t)] else [] := by
  simp only [handleSpeechTagContext]
  split <;> rfl

lemma handle_end_events (s : ImplState) (t : String) :
    (handleSpeechTagContext s SpeechTag.End t).2 = [(ResultTag.Final, t)] := rfl

lemma partialEvents_ite (c : Prop) [Decidable c] (t : String) :
    partialEvents (if c then [(ResultTag.Partial, t)] else []) =
      (if c then [(ResultTag.Partial, t)] else []) := by
  split <;> rfl

lemma prepare_mCtx (s : ImplState) (a : List Sample) (t : SpeechTag) :
    (prepareAudioWithContext s a t).2.mCtx = s.mCtx := by
  simp only [prepareAudioWithContext]
  repeat' split
  all_goals rfl

lemma extract_mCtx (s : ImplState) (segs : List Segment) :
    (extractTextAndUpdateContext s segs).2.mCtx = s.mCtx := by
  simp only [extractTextAndUpdateContext]
  split <;> rfl

lemma fixed_mCtx (eng : Engine) (s : ImplState) (a : List Sample) (t : SpeechTag) :
    (processFixedChunk eng s a t).state.mCtx = s.mCtx := by
  simp only [processFixedChunk]
  cases eng (prepareAudioWithContext s a t).1
      (setupContextForSpeechTag (prepareAudioWithContext s a t).2 t) with
  | none => exact prepare_mCtx s a t
  | some segs =>
    dsimp only
    rw [extract_mCtx, prepare_mCtx]

lemma handle_mCtx (s : ImplState) (t : SpeechTag) (str : String) :
    (handleSpeechTagContext s t str).1.mCtx = s.mCtx := by
  cases t <;> simp only [handleSpeechTagContext] <;> (repeat' split) <;> rfl

lemma chunk_state_mCtx (eng : Engine) (s : ImplState) (a : List Sample) (t : SpeechTag) :
    (processAudioChunk eng s a t).state.mCtx = s.mCtx := by
  rw [processAudioChunk]
  split
  · rfl
  split
  · rfl
  dsimp only
  rw [handle_mCtx]
  by_cases ha : a = []
  · simp only [if_pos ha]
  · simp only [if_neg ha]
    exact fixed_mCtx eng s a t

/-- Partial callbacks emitted for a Start-tagged chunk. -/
lemma chunk_start_partials (eng : Engine) (s : ImplState) (a : List Sample)
    (hc : s.mCtx ≠ none) :
    partialEvents (processAudioChunk eng s a SpeechTag.Start).events
      = (if chunkText eng s a SpeechTag.Start ≠ "" then
          [(ResultTag.Partial, chunkText eng s a SpeechTag.Start)] else []) := by
  by_cases ha : a = []
  · rw [processAudioChunk, if_neg hc, if_pos ⟨ha, by decide⟩]
    rw [chunkText, if_pos ha]
    simp [partialEvents]
  · rw [processAudioChunk_unfold eng s a _ hc (by simp [ha])]
    dsimp only
    simp only [if_neg ha]
    rw [partialEvents_append, partialEvents_fixed, handle_start_events, partialEvents_ite,
      List.nil_append]

/-- Partial callbacks emitted for a Continue-tagged chunk. -/
lemma chunk_continue_partials (eng : Engine) (s : ImplState) (a : List Sample)
    (hc : s.mCtx ≠ none) :
    partialEvents (processAudioChunk eng s a SpeechTag.Continue).events
      = (if chunkText eng s a SpeechTag.Continue ≠ "" ∧
            chunkText eng s a SpeechTag.Continue ≠ s.mLastPartialResult then
          [(ResultTag.Partial, chunkText eng s a SpeechTag.Continue)] else []) := by
  by_cases ha : a = []
  · rw [processAudioChunk, if_neg hc, if_pos ⟨ha, by decide⟩]
    rw [chunkText, if_pos ha]
    simp [partialEvents]
  · rw [processAudioChunk_unfold eng s a _ hc (by simp [ha])]
    dsimp only
    simp only [if_neg ha]
    rw [partialEvents_append, partialEvents_fixed, handle_continue_events]
    have hlast : (processFixedChunk eng s a SpeechTag.Continue).state.mLastPartialResult
        = s.mLastPartialResult := by
      simp only [processFixedChunk]
      cases eng (prepareAudioWithContext s a SpeechTag.Continue).1
          (setupContextForSpeechTag (prepareAudioWithContext s a SpeechTag.Continue).2
            SpeechTag.Continue) with
      | none =>
        show (prepareAudioWithContext s a SpeechTag.Continue).2.mLastPartialResult = _
        simp only [prepareAudioWithContext]
        repeat' split
        all_goals rfl
      | some segs =>
        dsimp only
        show (extractTextAndUpdateContext
            (prepareAudioWithContext s a SpeechTag.Continue).2 segs).2.mLastPartialResult = _
        simp only [extractTextAndUpdateContext]
        split
        · show (prepareAudioWithContext s a SpeechTag.Continue).2.mLastPartialResult = _
          simp only [prepareAudioWithContext]
          repeat' split
          all_goals rfl
        · show (prepareAudioWithContext s a SpeechTag.Continue).2.mLastPartialResult = _
          simp only [prepareAudioWithContext]
          repeat' split
          all_goals rfl
    rw [hlast, partialEvents_ite, List.nil_append]

/-- Final callbacks emitted for an End-tagged chunk: always exactly one,
carrying the chunk text (possibly empty). -/
lemma chunk_end_finals (eng : Engine) (s : ImplState) (a : List Sample)
    (hc : s.mCtx ≠ none) :
    finalEvents (processAudioChunk eng s a SpeechTag.End).events
      = [(ResultTag.Final, chunkText eng s a SpeechTag.End)] := by
  rw [processAudioChunk_unfold eng s a _ hc (by simp)]
  dsimp only
  by_cases ha : a = []
  · simp only [if_pos ha]
    rw [List.nil_append, handle_end_events]
    rfl
  · simp only [if_neg ha]
    rw [finalEvents_append, finalEvents_fixed, handle_end_events, List.nil_append]
    rfl

lemma prepare_mLast (s : ImplState) (a : List Sample) (t : SpeechTag) :
    (prepareAudioWithContext s a t).2.mLastPartialResult = s.mLastPartialResult := by
  simp only [prepareAudioWithContext]
  repeat' split
  all_goals rfl

lemma extract_mLast (s : ImplState) (segs : List Segment) :
    (extractTextAndUpdateContext s segs).2.mLastPartialResult = s.mLastPartialResult := by
  simp only [extractTextAndUpdateContext]
  split <;> rfl

lemma fixed_mLast (eng : Engine) (s : ImplState) (a : List Sample) (t : SpeechTag) :
    (processFixedChunk eng s a t).state.mLastPartialResult = s.mLastPartialResult := by
  simp only [processFixedChunk]
  cases eng (prepareAudioWithContext s a t).1
      (setupContextForSpeechTag (prepareAudioWithContext s a t).2 t) with
  | none => exact prepare_mLast s a t
  | some segs =>
    dsimp only
    rw [extract_mLast, prepare_mLast]

lemma handle_continue_state (s : ImplState) (t : String) :
    (handleSpeechTagContext s SpeechTag.Continue t).1
      = (if t ≠ "" ∧ t ≠ s.mLastPartialResult then
          { s with mLastPartialResult := t } else s) := by
  simp only [handleSpeechTagContext]
  split <;> rfl

/-- `mLastPartialResult` after a Continue chunk: updated exactly when a
Partial callback fires. -/
lemma chunk_continue_last (eng : Engine) (s : ImplState) (a : List Sample)
    (hc : s.mCtx ≠ none) :
    (processAudioChunk eng s a SpeechTag.Continue).state.mLastPartialResult
      = (if chunkText eng s a SpeechTag.Continue ≠ "" ∧
            chunkText eng s a SpeechTag.Continue ≠ s.mLastPartialResult then
           chunkText eng s a SpeechTag.Continue else s.mLastPartialResult) := by
  by_cases ha : a = []
  · rw [processAudioChunk, if_neg hc, if_pos ⟨ha, by decide⟩, chunkText, if_pos ha]
    simp
  · rw [processAudioChunk_unfold eng s a _ hc (by simp [ha])]
    dsimp only
    simp only [if_neg ha]
    rw [handle_continue_state, fixed_mLast]
    by_cases hcnd : chunkText eng s a SpeechTag.Continue ≠ "" ∧
        chunkText eng s a SpeechTag.Continue ≠ s.mLastPartialResult
    · rw [if_pos hcnd, if_pos hcnd]
    · rw [if_neg hcnd, if_neg hcnd, fixed_mLast]

lemma countPartialWith_eq (t : String) (evs : List (ResultTag × String)) :
    countPartialWith t evs
      = ((partialEvents evs).filter (fun e => e = (ResultTag.Partial, t))).length := by
  rw [countPartialWith, partialEvents, List.filter_filter]
  congr 1
  apply List.filter_congr
  intro e _
  by_cases he : e = (ResultTag.Partial, t)
  · subst he
    simp
  · simp [he]

/-- Partial-callback count of one Continue chunk whose decoded text is `t`. -/
lemma countPartialWith_step_continue (eng : Engine) (s : ImplState) (a : List Sample)
    (hc : s.mCtx ≠ none) (t : String) (ht : chunkText eng s a SpeechTag.Continue = t) :
    countPartialWith t (processAudioChunk eng s a SpeechTag.Continue).events
      = (if t ≠ "" ∧ t ≠ s.mLastPartialResult then 1 else 0) := by
  rw [countPartialWith_eq, chunk_continue_partials eng s a hc, ht]
  by_cases hcnd : t ≠ "" ∧ t ≠ s.mLastPartialResult
  · rw [if_pos hcnd, if_pos hcnd]
    simp
  · rw [if_neg hcnd, if_neg hcnd]
    rfl

/-! ## Claim C2 -/

/-- Claim C2 (confirmed): per-tag callback emission policy of a processed
chunk. A Start chunk emits a Partial callback exactly when its resulting text
is non-empty; a Continue chunk emits a Partial callback exactly when its
resulting text is non-empty and differs from the last emitted text
(`mLastPartialResult`); an End chunk always emits exactly one Final callback,
even with empty text; and two consecutive Continue chunks that decode to the
same text `t` produce at most one Partial callback with text `t` in total. -/
theorem callback_emission_policy (eng : Engine) (s : ImplState) (hc : s.mCtx ≠ none) :
    (∀ a, partialEvents (processAudioChunk eng s a SpeechTag.Start).events
        = (if chunkText eng s a SpeechTag.Start ≠ "" then
            [(ResultTag.Partial, chunkText eng s a SpeechTag.Start)] else [])) ∧
    (∀ a, partialEvents (processAudioChunk eng s a SpeechTag.Continue).events
        = (if chunkText eng s a SpeechTag.Continue ≠ "" ∧
              chunkText eng s a SpeechTag.Continue ≠ s.mLastPartialResult then
            [(ResultTag.Partial, chunkText eng s a SpeechTag.Continue)] else [])) ∧
    (∀ a, finalEvents (processAudioChunk eng s a SpeechTag.End).events
        = [(ResultTag.Final, chunkText eng s a SpeechTag.End)]) ∧
    (∀ a b t, chunkText eng s a SpeechTag.Continue = t →
      chunkText eng (processAudioChunk eng s a SpeechTag.Continue).state b
          SpeechTag.Continue = t →
      countPartialWith t
        ((processAudioChunk eng s a SpeechTag.Continue).events ++
         (processAudioChunk eng (processAudioChunk eng s a SpeechTag.Continue).state b
            SpeechTag.Continue).events) ≤ 1) := by
  refine ⟨fun a => chunk_start_partials eng s a hc,
          fun a => chunk_continue_partials eng s a hc,
          fun a => chunk_end_finals eng s a hc, ?_⟩
  intro a b t ht1 ht2
  have hc1 : (processAudioChunk eng s a SpeechTag.Continue).state.mCtx ≠ none := by
    rw [chunk_state_mCtx]
    exact hc
  rw [countPartialWith, List.filter_append, List.length_append,
    ← countPartialWith, ← countPartialWith,
    countPartialWith_step_continue eng s a hc t ht1,
    countPartialWith_step_continue eng _ b hc1 t ht2,
    chunk_continue_last eng s a hc, ht1]
  split_ifs with h1 h2 h3 <;> try omega
  exact absurd rfl h2.2

/-- An engine that always decodes one segment with text "hi" and tokens
1, 2 — used to instantiate theorems at concrete inputs. -/
def engHi : Engine := fun _ _ => some [("hi", [1, 2])]

/-- Witness for `callback_emission_policy` at concrete inputs. -/
theorem callback_emission_policy_wit :
    (finalEvents (processAudioChunk engHi readyImpl [] SpeechTag.End).events
      = [(ResultTag.Final, chunkText engHi readyImpl [] SpeechTag.End)]) ∧
    countPartialWith "hi"
      ((processAudioChunk engHi readyImpl [3] SpeechTag.Continue).events ++
       (processAudioChunk engHi
          (processAudioChunk engHi readyImpl [3] SpeechTag.Continue).state [4]
          SpeechTag.Continue).events) ≤ 1 :=
  ⟨(callback_emission_policy engHi readyImpl (by decide)).2.2.1 [],
   (callback_emission_policy engHi readyImpl (by decide)).2.2.2 [3] [4] "hi"
     (by decide) (by decide)⟩

/-! ## Claim C5 -/

/-- Claim C5 (confirmed): a `processAudio` call with tag Continue while no
session is open (`mCurrentlyAccumulating = false`) is a complete no-op (state,
accumulation buffer and queue unchanged); a call with tag End always enqueues
exactly one End-tagged chunk; and the worker emits exactly one Final callback
for every End chunk, even one with zero samples. -/
theorem continue_noop_end_finalizes :
    (∀ (s : ImplState) (audio : List Sample),
      s.mCurrentlyAccumulating = false → processAudio s audio SpeechTag.Continue = s) ∧
    (∀ (s : ImplState) (audio : List Sample),
      s.mRunning = true → s.mCtx ≠ none → s.mCurrentlyAccumulating = false →
      ∃ payload, (processAudio s audio SpeechTag.End).mAudioQueue
          = s.mAudioQueue ++ [(payload, SpeechTag.End)]) ∧
    (∀ (eng : Engine) (s : ImplState) (audio : List Sample), s.mCtx ≠ none →
      finalEvents (processAudioChunk eng s audio SpeechTag.End).events
        = [(ResultTag.Final, chunkText eng s audio SpeechTag.End)]) := by
  refine ⟨?_, ?_, fun eng s audio hc => chunk_end_finals eng s audio hc⟩
  · intro s audio hacc
    rw [processAudio.eq_def]
    split
    · rfl
    · dsimp only
      rw [if_neg (by rw [hacc]; exact Bool.false_ne_true)]
  · intro s audio hr hc hacc
    have h0 : ¬ (s.mRunning = false ∨ s.mCtx = none) := by
      rintro (h | h)
      · rw [hr] at h; exact Bool.noConfusion h
      · exact hc h
    by_cases hne : s.mChunkBuffer ++ audio = []
    · refine ⟨[], ?_⟩
      rw [processAudio, if_neg h0]
      dsimp only
      rw [if_pos hne]
    · exact ⟨endPayload s audio, processAudio_end_queue s audio hr hc hne⟩

/-- Witness for `continue_noop_end_finalizes` at concrete inputs. -/
theorem continue_noop_end_finalizes_wit :
    processAudio readyImpl [7] SpeechTag.Continue = readyImpl ∧
    (∃ payload, (processAudio readyImpl [] SpeechTag.End).mAudioQueue
        = readyImpl.mAudioQueue ++ [(payload, SpeechTag.End)]) ∧
    finalEvents (processAudioChunk engHi readyImpl [] SpeechTag.End).events
      = [(ResultTag.Final, chunkText engHi readyImpl [] SpeechTag.End)] :=
  ⟨continue_noop_end_finalizes.1 readyImpl [7] rfl,
   continue_noop_end_finalizes.2.1 readyImpl [] rfl (by decide) rfl,
   continue_noop_end_finalizes.2.2 engHi readyImpl [] (by decide)⟩

/-! ## Claim C9 -/

/-- `prepareAudioWithContext` on an End-tagged chunk leaves the state alone
and hands the new audio through unchanged. -/
lemma prepare_end (s : ImplState) (a : List Sample) :
    prepareAudioWithContext s a SpeechTag.End = (a, s) := rfl

/-- Claim C9 (confirmed): when the engine call fails on an End-tagged chunk,
the worker emits an Error callback followed by a Final callback with empty
text, and the whole session state (token history, overlap buffer, chunk
buffer, last-partial text, both in-session flags) is reset. -/
theorem end_chunk_engine_failure (eng : Engine) (s : ImplState) (a : List Sample)
    (hc : s.mCtx ≠ none) (ha : a ≠ [])
    (hfail : eng a (setupContextForSpeechTag s SpeechTag.End) = none) :
    (processAudioChunk eng s a SpeechTag.End).events
      = [(ResultTag.Error, "Failed to process fixed audio chunk"),
         (ResultTag.Final, "")] ∧
    (processAudioChunk eng s a SpeechTag.End).state.mPromptTokens = [] ∧
    (processAudioChunk eng s a SpeechTag.End).state.mAudioBuffer = [] ∧
    (processAudioChunk eng s a SpeechTag.End).state.mChunkBuffer = [] ∧
    (processAudioChunk eng s a SpeechTag.End).state.mLastPartialResult = "" ∧
    (processAudioChunk eng s a SpeechTag.End).state.mInSpeechSequence = false ∧
    (processAudioChunk eng s a SpeechTag.End).state.mCurrentlyAccumulating = false := by
  have hfx : processFixedChunk eng s a SpeechTag.End
      = ⟨"", s, [⟨a, setupContextForSpeechTag s SpeechTag.End⟩],
         [(ResultTag.Error, "Failed to process fixed audio chunk")]⟩ := by
    simp only [processFixedChunk, prepare_end]
    rw [hfail]
  rw [processAudioChunk_unfold eng s a _ hc (by simp)]
  simp only [if_neg ha]
  rw [chunkText, if_neg ha, hfx]
  exact ⟨rfl, rfl, rfl, rfl, rfl, rfl, rfl⟩

/-- An engine that always fails. -/
def engFail : Engine := fun _ _ => none

/-- Witness for `end_chunk_engine_failure` at concrete inputs. -/
theorem end_chunk_engine_failure_wit :
    (processAudioChunk engFail readyImpl [2] SpeechTag.End).events
      = [(ResultTag.Error, "Failed to process fixed audio chunk"),
         (ResultTag.Final, "")] ∧
    (processAudioChunk engFail readyImpl [2] SpeechTag.End).state.mPromptTokens = [] ∧
    (processAudioChunk engFail readyImpl [2] SpeechTag.End).state.mAudioBuffer = [] ∧
    (processAudioChunk engFail readyImpl [2] SpeechTag.End).state.mChunkBuffer = [] ∧
    (processAudioChunk engFail readyImpl [2] SpeechTag.End).state.mLastPartialResult = "" ∧
    (processAudioChunk engFail readyImpl [2] SpeechTag.End).state.mInSpeechSequence = false ∧
    (processAudioChunk engFail readyImpl [2] SpeechTag.End).state.mCurrentlyAccumulating
      = false :=
  end_chunk_engine_failure engFail readyImpl [2] (by decide) (by decide) rfl

/-! ## Claim C4 -/

lemma prepare_mPrompt (s : ImplState) (a : List Sample) (t : SpeechTag) :
    (prepareAudioWithContext s a t).2.mPromptTokens = s.mPromptTokens := by
  simp only [prepareAudioWithContext]
  repeat' split
  all_goals rfl

/-- On a Continue chunk inside a session with non-empty audio, preparation
sets the overlap buffer to exactly the prepared (overlap plus new) audio. -/
lemma prepare_continue_buffer (s : ImplState) (a : List Sample)
    (hseq : s.mInSpeechSequence = true) (ha : a ≠ []) :
    (prepareAudioWithContext s a SpeechTag.Continue).2.mAudioBuffer
      = (prepareAudioWithContext s a SpeechTag.Continue).1 := by
  rw [prepareAudioWithContext, if_neg (by decide), if_pos ⟨rfl, hseq⟩]
  split
  · dsimp only
    rw [if_neg ha]
  · rfl

/-- An engine that fails exactly on three-sample inputs and otherwise decodes
one segment "hi" with tokens 1, 2. -/
def engLen3Fails : Engine := fun a _ =>
  if a.length = 3 then none else some [("hi", [1, 2])]

/-- A ready backend state in the middle of a speech session: a session is
open and the overlap tail holds the previously processed audio. -/
def readyStartedSession : ImplState :=
  { readyImpl with
      mInSpeechSequence := true
      mAudioBuffer := [3, 4]
      mCurrentlyAccumulating := true }

/-- Claim C4 (corrected), counterexample to the original statement: with an
engine that fails exactly on three-sample inputs, the worker processes a
successful Start chunk `[3, 4]` (overlap tail becomes `[3, 4]`) and then a
Continue chunk `[5]` whose engine call fails. The failed chunk emits the
Error callback, yet the overlap tail carried to the next chunk is
`[3, 4, 5]`, not the pre-chunk value `[3, 4]` — the failed chunk did update
`mAudioBuffer`. -/
theorem failed_chunk_state_cex :
    (processAudioChunk engLen3Fails
        (processAudioChunk engLen3Fails readyImpl [3, 4] SpeechTag.Start).state
        [5] SpeechTag.Continue).events
      = [(ResultTag.Error, "Failed to process fixed audio chunk")] ∧
    (processAudioChunk engLen3Fails readyImpl [3, 4] SpeechTag.Start).state.mAudioBuffer
      = [3, 4] ∧
    (processAudioChunk engLen3Fails
        (processAudioChunk engLen3Fails readyImpl [3, 4] SpeechTag.Start).state
        [5] SpeechTag.Continue).state.mAudioBuffer = [3, 4, 5] ∧
    ([3, 4, 5] : List Sample) ≠ [3, 4] := by
  refine ⟨by decide, by decide, by decide, by decide⟩

/-- Claim C4 (amended): when the engine call fails on a Continue chunk inside
a session, only the Error callback is emitted, the token history
(`mPromptTokens`), the last-partial text and the chunk buffer are not
updated, and the worker continues with the subsequent chunks; however the
audio overlap tail `mAudioBuffer` IS updated by chunk preparation before the
engine call — it becomes the prepared (overlap plus new) audio rather than
staying at its pre-chunk value. -/
theorem failed_chunk_state (eng : Engine) (s : ImplState) (a : List Sample)
    (hc : s.mCtx ≠ none) (hseq : s.mInSpeechSequence = true) (ha : a ≠ [])
    (hfail : eng (prepareAudioWithContext s a SpeechTag.Continue).1
        (setupContextForSpeechTag (prepareAudioWithContext s a SpeechTag.Continue).2
          SpeechTag.Continue) = none) :
    (processAudioChunk eng s a SpeechTag.Continue).events
      = [(ResultTag.Error, "Failed to process fixed audio chunk")] ∧
    (processAudioChunk eng s a SpeechTag.Continue).state.mPromptTokens
      = s.mPromptTokens ∧
    (processAudioChunk eng s a SpeechTag.Continue).state.mLastPartialResult
      = s.mLastPartialResult ∧
    (processAudioChunk eng s a SpeechTag.Continue).state.mChunkBuffer
      = s.mChunkBuffer ∧
    (processAudioChunk eng s a SpeechTag.Continue).state.mAudioBuffer
      = (prepareAudioWithContext s a SpeechTag.Continue).1 ∧
    (∀ cs, runWorker eng s ((a, SpeechTag.Continue) :: cs)
      = ⟨(runWorker eng (processAudioChunk eng s a SpeechTag.Continue).state cs).state,
         (processAudioChunk eng s a SpeechTag.Continue).calls ++
           (runWorker eng (processAudioChunk eng s a SpeechTag.Continue).state cs).calls,
         (processAudioChunk eng s a SpeechTag.Continue).events ++
           (runWorker eng (processAudioChunk eng s a SpeechTag.Continue).state cs).events⟩) := by
  have hfx : processFixedChunk eng s a SpeechTag.Continue
      = ⟨"", (prepareAudioWithContext s a SpeechTag.Continue).2,
         [⟨(prepareAudioWithContext s a SpeechTag.Continue).1,
           setupContextForSpeechTag (prepareAudioWithContext s a SpeechTag.Continue).2
             SpeechTag.Continue⟩],
         [(ResultTag.Error, "Failed to process fixed audio chunk")]⟩ := by
    simp only [processFixedChunk]
    rw [hfail]
  have hchunkText : chunkText eng s a SpeechTag.Continue = "" := by
    rw [chunkText, if_neg ha, hfx]
  have hhandle : handleSpeechTagContext (prepareAudioWithContext s a SpeechTag.Continue).2
      SpeechTag.Continue ""
      = ((prepareAudioWithContext s a SpeechTag.Continue).2, []) := by
    simp only [handleSpeechTagContext]
    rw [if_neg (fun hcon => hcon.1 rfl)]
  have hstep := processAudioChunk_unfold eng s a SpeechTag.Continue hc (by simp [ha])
  simp only [if_neg ha] at hstep
  rw [hchunkText, hfx] at hstep
  dsimp only at hstep
  rw [hhandle] at hstep
  refine ⟨?_, ?_, ?_, ?_, ?_, fun cs => rfl⟩
  · rw [hstep]
    rfl
  · rw [hstep]
    exact prepare_mPrompt s a _
  · rw [hstep]
    exact prepare_mLast s a _
  · rw [hstep]
    show (prepareAudioWithContext s a SpeechTag.Continue).2.mChunkBuffer = s.mChunkBuffer
    simp only [prepareAudioWithContext]
    repeat' split
    all_goals rfl
  · rw [hstep]
    exact prepare_continue_buffer s a hseq ha

/-- Witness for `failed_chunk_state` at concrete inputs. -/
theorem failed_chunk_state_wit :
    (processAudioChunk engFail readyStartedSession [9] SpeechTag.Continue).events
      = [(ResultTag.Error, "Failed to process fixed audio chunk")] ∧
    (processAudioChunk engFail readyStartedSession [9] SpeechTag.Continue).state.mPromptTokens
      = readyStartedSession.mPromptTokens ∧
    (processAudioChunk engFail readyStartedSession [9]
        SpeechTag.Continue).state.mLastPartialResult
      = readyStartedSession.mLastPartialResult ∧
    (processAudioChunk engFail readyStartedSession [9] SpeechTag.Continue).state.mChunkBuffer
      = readyStartedSession.mChunkBuffer ∧
    (processAudioChunk engFail readyStartedSession [9] SpeechTag.Continue).state.mAudioBuffer
      = (prepareAudioWithContext readyStartedSession [9] SpeechTag.Continue).1 ∧
    (∀ cs, runWorker engFail readyStartedSession (([9], SpeechTag.Continue) :: cs)
      = ⟨(runWorker engFail
            (processAudioChunk engFail readyStartedSession [9] SpeechTag.Continue).state
            cs).state,
         (processAudioChunk engFail readyStartedSession [9] SpeechTag.Continue).calls ++
           (runWorker engFail
             (processAudioChunk engFail readyStartedSession [9] SpeechTag.Continue).state
             cs).calls,
         (processAudioChunk engFail readyStartedSession [9] SpeechTag.Continue).events ++
           (runWorker engFail
             (processAudioChunk engFail readyStartedSession [9] SpeechTag.Continue).state
             cs).events⟩) :=
  failed_chunk_state engFail readyStartedSession [9] (by decide) rfl (by decide) rfl

/-! ## Claim C3 -/

/-- The engine invocation recorded by a fixed-chunk step: prepared audio and
the prompt from `setupContextForSpeechTag`, for both engine outcomes. -/
lemma fixed_calls (eng : Engine) (s : ImplState) (a : List Sample) (t : SpeechTag) :
    (processFixedChunk eng s a t).calls
      = [⟨(prepareAudioWithContext s a t).1,
          setupContextForSpeechTag (prepareAudioWithContext s a t).2 t⟩] := by
  simp only [processFixedChunk]
  cases eng (prepareAudioWithContext s a t).1
      (setupContextForSpeechTag (prepareAudioWithContext s a t).2 t) <;> rfl

lemma prepare_start_fst (s : ImplState) (a : List Sample) :
    (prepareAudioWithContext s a SpeechTag.Start).1 = a := by
  rw [prepareAudioWithContext, if_pos rfl]

lemma setup_start (s : ImplState) :
    setupContextForSpeechTag s SpeechTag.Start = none := by
  rw [setupContextForSpeechTag, if_pos rfl]

lemma setup_continue (s : ImplState) (hseq : s.mInSpeechSequence = true) :
    setupContextForSpeechTag s SpeechTag.Continue
      = (if s.mPromptTokens ≠ [] then some s.mPromptTokens else none) := by
  rw [setupContextForSpeechTag, if_neg (by decide), if_pos ⟨rfl, hseq⟩]

lemma setup_end (s : ImplState) (hseq : s.mInSpeechSequence = true) :
    setupContextForSpeechTag s SpeechTag.End
      = (if s.mPromptTokens ≠ [] then some s.mPromptTokens else none) := by
  rw [setupContextForSpeechTag, if_neg (by decide),
    if_neg (fun hcon => SpeechTag.noConfusion hcon.1)]
  by_cases ht : s.mPromptTokens ≠ []
  · rw [if_pos ⟨ht, hseq⟩, if_pos ht]
  · rw [if_neg (fun hcon => ht hcon.1), if_neg ht]

lemma handle_start_tokens (s : ImplState) (t : String) :
    (handleSpeechTagContext s SpeechTag.Start t).1.mPromptTokens = [] := by
  simp only [handleSpeechTagContext]
  split <;> rfl

lemma handle_continue_tokens (s : ImplState) (t : String) :
    (handleSpeechTagContext s SpeechTag.Continue t).1.mPromptTokens = s.mPromptTokens := by
  simp only [handleSpeechTagContext]
  split <;> rfl

lemma handle_end_tokens (s : ImplState) (t : String) :
    (handleSpeechTagContext s SpeechTag.End t).1.mPromptTokens = [] := rfl

lemma prepare_continue_mInSeq (s : ImplState) (a : List Sample) :
    (prepareAudioWithContext s a SpeechTag.Continue).2.mInSpeechSequence
      = s.mInSpeechSequence := by
  simp only [prepareAudioWithContext]
  rw [if_neg (by decide)]
  repeat' split
  all_goals rfl

/-- Token accumulation performed by `extractTextAndUpdateContext` inside a
speech sequence: the tokens of all segments are appended in order. -/
lemma extract_tokens (s : ImplState) (segs : List Segment)
    (hseq : s.mInSpeechSequence = true) :
    (extractTextAndUpdateContext s segs).2.mPromptTokens
      = segs.foldl (fun acc g => acc ++ g.2) s.mPromptTokens := by
  simp only [extractTextAndUpdateContext]
  split
  · rfl
  · rename_i hcon
    have hlen : segs.length = 0 := by
      by_contra hne
      exact hcon ⟨hseq, Nat.pos_of_ne_zero hne⟩
    rw [List.length_eq_zero] at hlen
    subst hlen
    rfl

/-- Claim C3 (corrected), counterexample to the original statement: with an
engine that always decodes tokens `[1, 2]`, the worker processes a Start
chunk and then the session's first Continue chunk; the prompt passed to the
engine on the Continue call is `none` (no token context), not the session's
accumulated token list `[1, 2]` that the Start chunk decoded — the Start
chunk's tokens were cleared before any later call could use them. -/
theorem token_context_cex :
    ((runWorker engHi readyImpl
        [([3], SpeechTag.Start), ([4], SpeechTag.Continue)]).calls.map
      EngineCall.prompt) = [none, none] ∧
    ([("hi", [1, 2])] : List Segment).foldl (fun acc g => acc ++ g.2) [] = [1, 2] ∧
    ([1, 2] : List Token) ≠ [] := by
  refine ⟨by decide, by decide, by decide⟩

/-- Claim C3 (amended): the prompt passed to the engine on a Continue or End
call of an open session is exactly the current accumulated token history
`mPromptTokens` (no context when it is empty), and a successful Continue call
appends the decoded segment tokens to that history; the Start call itself
runs with no token context; but the token history is cleared by the Start-tag
handling AFTER the Start chunk's own tokens were extracted, and cleared again
on End — so the history passed to later calls contains only tokens decoded
from the session's earlier Continue chunks, never the Start chunk's tokens. -/
theorem token_context_policy (eng : Engine) (s : ImplState) (hc : s.mCtx ≠ none) :
    (∀ a, a ≠ [] →
      (processAudioChunk eng s a SpeechTag.Start).calls = [⟨a, none⟩] ∧
      (processAudioChunk eng s a SpeechTag.Start).state.mPromptTokens = []) ∧
    (∀ a, a ≠ [] → s.mInSpeechSequence = true →
      (processAudioChunk eng s a SpeechTag.Continue).calls
        = [⟨(prepareAudioWithContext s a SpeechTag.Continue).1,
            if s.mPromptTokens ≠ [] then some s.mPromptTokens else none⟩] ∧
      (∀ segs, eng (prepareAudioWithContext s a SpeechTag.Continue).1
            (if s.mPromptTokens ≠ [] then some s.mPromptTokens else none) = some segs →
        (processAudioChunk eng s a SpeechTag.Continue).state.mPromptTokens
          = segs.foldl (fun acc g => acc ++ g.2) s.mPromptTokens)) ∧
    (∀ a, (processAudioChunk eng s a SpeechTag.End).state.mPromptTokens = [] ∧
      (a ≠ [] → s.mInSpeechSequence = true →
        (processAudioChunk eng s a SpeechTag.End).calls
          = [⟨a, if s.mPromptTokens ≠ [] then some s.mPromptTokens else none⟩])) := by
  refine ⟨?_, ?_, ?_⟩
  · intro a ha
    have hstep := processAudioChunk_unfold eng s a SpeechTag.Start hc (by simp [ha])
    simp only [if_neg ha] at hstep
    rw [hstep]
    refine ⟨?_, handle_start_tokens _ _⟩
    rw [fixed_calls, prepare_start_fst, setup_start]
  · intro a ha hseq
    have hstep := processAudioChunk_unfold eng s a SpeechTag.Continue hc (by simp [ha])
    simp only [if_neg ha] at hstep
    have hsetup : setupContextForSpeechTag
        (prepareAudioWithContext s a SpeechTag.Continue).2 SpeechTag.Continue
        = (if s.mPromptTokens ≠ [] then some s.mPromptTokens else none) := by
      rw [setup_continue _ (by rw [prepare_continue_mInSeq]; exact hseq), prepare_mPrompt]
    constructor
    · rw [hstep, fixed_calls, hsetup]
    · intro segs hsegs
      have hfx : processFixedChunk eng s a SpeechTag.Continue
          = ⟨(extractTextAndUpdateContext
                (prepareAudioWithContext s a SpeechTag.Continue).2 segs).1,
             (extractTextAndUpdateContext
                (prepareAudioWithContext s a SpeechTag.Continue).2 segs).2,
             [⟨(prepareAudioWithContext s a SpeechTag.Continue).1,
               setupContextForSpeechTag
                 (prepareAudioWithContext s a SpeechTag.Continue).2 SpeechTag.Continue⟩],
             []⟩ := by
        simp only [processFixedChunk]
        rw [hsetup, hsegs]
      rw [hstep, hfx]
      dsimp only
      rw [handle_continue_tokens,
        extract_tokens _ segs (by rw [prepare_continue_mInSeq]; exact hseq),
        prepare_mPrompt]
  · intro a
    constructor
    · have hstep := processAudioChunk_unfold eng s a SpeechTag.End hc (by simp)
      rw [hstep]
      by_cases ha : a = []
      · simp only [if_pos ha]
        exact handle_end_tokens _ _
      · simp only [if_neg ha]
        exact handle_end_tokens _ _
    · intro ha hseq
      have hstep := processAudioChunk_unfold eng s a SpeechTag.End hc (by simp)
      simp only [if_neg ha] at hstep
      rw [hstep, fixed_calls, prepare_end]
      rw [show ((a, s) : List Sample × ImplState).2 = s from rfl,
        show ((a, s) : List Sample × ImplState).1 = a from rfl,
        setup_end s hseq]

/-- Witness for `token_context_policy` at concrete inputs. -/
theorem token_context_policy_wit :
    ((processAudioChunk engHi readyStartedSession [3] SpeechTag.Start).calls
        = [⟨[3], none⟩] ∧
      (processAudioChunk engHi readyStartedSession [3]
          SpeechTag.Start).state.mPromptTokens = []) ∧
    ((processAudioChunk engHi readyStartedSession [4] SpeechTag.Continue).calls
        = [⟨(prepareAudioWithContext readyStartedSession [4] SpeechTag.Continue).1,
            if readyStartedSession.mPromptTokens ≠ []
            then some readyStartedSession.mPromptTokens else none⟩]) ∧
    ((processAudioChunk engHi readyStartedSession [4]
        SpeechTag.End).state.mPromptTokens = []) :=
  ⟨(token_context_policy engHi readyStartedSession (by decide)).1 [3] (by decide),
   ((token_context_policy engHi readyStartedSession (by decide)).2.1 [4]
      (by decide) rfl).1,
   ((token_context_policy engHi readyStartedSession (by decide)).2.2 [4]).1⟩

/-! ## Model lifecycle helper lemmas -/

/-- An environment in which every model file exists and engine instantiation
succeeds. -/
def demoEnv : Env := ⟨fun _ => true, fun _ => some 1⟩

/-- An environment in which no model file exists. -/
def noFileEnv : Env := ⟨fun _ => false, fun _ => some 1⟩

/-- A `processAudio` call is silently dropped when the backend is not running
or no engine is loaded. -/
lemma processAudio_guard (s : ImplState) (audio : List Sample) (tag : SpeechTag)
    (h : s.mRunning = false ∨ s.mCtx = none) :
    processAudio s audio tag = s := by
  rw [processAudio.eq_def, if_pos h]

/-- `initializeWhisper` returning false leaves the handle and the language
fields unchanged (only the error log grows). -/
lemma initWhisper_false_fields (env : Env) (s s4 : ImplState)
    (h : initWhisper env s = Except.ok (false, s4)) :
    s4.mCtx = s.mCtx ∧ s4.mCurrentLanguage = s.mCurrentLanguage ∧
    s4.mRunning = s.mRunning := by
  rw [initWhisper] at h
  cases hbp : buildModelPath s s.mCurrentLanguage with
  | error e =>
    rw [hbp] at h
    exact Except.noConfusion h
  | ok path =>
    rw [hbp] at h
    dsimp only at h
    split at h
    · simp only [Except.ok.injEq, Prod.mk.injEq] at h
      rw [← h.2]
      exact ⟨rfl, rfl, rfl⟩
    · cases hw : env.whisperInit path with
      | none =>
        rw [hw] at h
        simp only [Except.ok.injEq, Prod.mk.injEq] at h
        rw [← h.2]
        exact ⟨rfl, rfl, rfl⟩
      | some hdl =>
        rw [hw] at h
        simp only [Except.ok.injEq, Prod.mk.injEq] at h
        exact absurd h.1 (by decide)

/-! ## Claim C6 -/

/-- Claim C6 (confirmed): `setLanguage` with the currently active language
returns true immediately and is an identity operation — the state (engine
handle, worker flag, parameters, buffers, token history) is returned
unchanged, with no unload, reload, stop or restart. -/
theorem setLanguage_same_identity (env : Env) (s : ImplState) (lang : Language)
    (h : lang = s.mCurrentLanguage) :
    setLanguage env s lang = Except.ok (true, s) := by
  rw [setLanguage, if_pos h]

/-- Witness for `setLanguage_same_identity` at concrete inputs. -/
theorem setLanguage_same_identity_wit :
    setLanguage demoEnv readyImpl Language.English = Except.ok (true, readyImpl) :=
  setLanguage_same_identity demoEnv readyImpl Language.English rfl

/-! ## Claim C7 -/

/-- Claim C7 (confirmed): `setLanguage` to a different language whose model
load fails (file missing or engine instantiation failure) returns false and
leaves the engine unloaded (`mCtx = none`, no fallback to the previous
model), the worker stopped (`mRunning = false`, not restarted), and every
subsequent `processAudio` call is silently dropped: it changes nothing and
enqueues nothing. -/
theorem setLanguage_load_failure (env : Env) (s : ImplState) (lang : Language)
    (path : String)
    (hne : lang ≠ s.mCurrentLanguage)
    (hres : buildModelPath s lang = Except.ok path)
    (hfail : env.fileExists path = false ∨ env.whisperInit path = none) :
    ∃ s2, setLanguage env s lang = Except.ok (false, s2) ∧
      s2.mCtx = none ∧ s2.mRunning = false ∧ s2.mCurrentLanguage = lang ∧
      ∀ (audio : List Sample) (tag : SpeechTag), processAudio s2 audio tag = s2 := by
  have hres2 := hres
  rw [buildModelPath] at hres2
  rw [setLanguage, if_neg hne]
  simp only [stopImpl, initWhisper, buildModelPath]
  rw [hres2]
  dsimp only
  by_cases hf : env.fileExists path = false
  · rw [if_pos hf]
    dsimp only
    rw [if_pos rfl]
    exact ⟨_, rfl, rfl, rfl, rfl,
      fun audio tag => processAudio_guard _ audio tag (Or.inl rfl)⟩
  · have hw : env.whisperInit path = none := by
      rcases hfail with h | h
      · exact absurd h hf
      · exact h
    rw [if_neg hf, hw]
    dsimp only
    rw [if_pos rfl]
    exact ⟨_, rfl, rfl, rfl, rfl,
      fun audio tag => processAudio_guard _ audio tag (Or.inl rfl)⟩

/-- Witness for `setLanguage_load_failure` at concrete inputs. -/
theorem setLanguage_load_failure_wit :
    ∃ s2, setLanguage noFileEnv readyImpl Language.Korean = Except.ok (false, s2) ∧
      s2.mCtx = none ∧ s2.mRunning = false ∧ s2.mCurrentLanguage = Language.Korean ∧
      ∀ (audio : List Sample) (tag : SpeechTag), processAudio s2 audio tag = s2 :=
  setLanguage_load_failure noFileEnv readyImpl Language.Korean "m.bin"
    (by decide) rfl (Or.inl rfl)

/-! ## Claim C10 -/

/-- Claim C10 (confirmed): because `setLanguage` updates `mCurrentLanguage`
before attempting the load, after a `setLanguage lang` call that returned
false the state already carries `mCurrentLanguage = lang` with no engine
loaded; a second `setLanguage lang` call (under any environment) therefore
hits the same-language early exit and returns true immediately, without
loading any model and with the engine still unloaded. -/
theorem setLanguage_false_then_same_true (env : Env) (s : ImplState) (lang : Language)
    (s2 : ImplState) (hres : setLanguage env s lang = Except.ok (false, s2)) :
    s2.mCurrentLanguage = lang ∧ s2.mCtx = none ∧
    ∀ env2, setLanguage env2 s2 lang = Except.ok (true, s2) := by
  by_cases hsame : lang = s.mCurrentLanguage
  · rw [setLanguage, if_pos hsame] at hres
    simp only [Except.ok.injEq, Prod.mk.injEq] at hres
    exact absurd hres.1 (by decide)
  · rw [setLanguage, if_neg hsame] at hres
    dsimp only at hres
    split at hres
    · exact Except.noConfusion hres
    · rename_i b s4 heq
      split at hres
      · rename_i hb
        rw [hb] at heq
        simp only [Except.ok.injEq, Prod.mk.injEq] at hres
        have hfields := initWhisper_false_fields _ _ s4 heq
        have hctx : s4.mCtx = none := hfields.1.trans rfl
        have hlang : s4.mCurrentLanguage = lang := hfields.2.1.trans rfl
        rw [← hres.2]
        refine ⟨hlang, hctx, fun env2 => ?_⟩
        rw [setLanguage, if_pos (hlang.symm.trans rfl)]
      · simp only [Except.ok.injEq, Prod.mk.injEq] at hres
        exact absurd hres.1.symm (by decide)

/-- The state left behind by a failed switch to Korean under `noFileEnv`. -/
def failedSwitchState : ImplState :=
  { readyImpl with
      mRunning := false
      mCtx := none
      mCurrentLanguage := Language.Korean
      mErrLog := ["Error: Could not find Korean model file: m.bin",
                  "Error: Failed to switch to Korean model"] }

/-- Witness for `setLanguage_false_then_same_true` at concrete inputs. -/
theorem setLanguage_false_then_same_true_wit :
    failedSwitchState.mCurrentLanguage = Language.Korean ∧
    failedSwitchState.mCtx = none ∧
    ∀ env2, setLanguage env2 failedSwitchState Language.Korean
        = Except.ok (true, failedSwitchState) :=
  setLanguage_false_then_same_true noFileEnv readyImpl Language.Korean
    failedSwitchState rfl

/-! ## Claim C8 -/

/-- A configured initial language with a model path implies the builder map is
not empty. -/
lemma modelsEmpty_lookup (m : Language → Option String) (lang : Language)
    (path : String) (h : m lang = some path) :
    modelsEmpty m = false := by
  rw [modelsEmpty]
  cases lang
  · rw [h]
    rfl
  · rw [h]
    simp

/-- Claim C8 (confirmed): construction fails hard whenever the callback is
missing or no model is resolvable for the requested initial language — a
thrown exception for a missing callback, an empty model table or an
unconfigured initial language, and a reported error (`std::cerr`, non-empty
error log) when the resolved model file does not exist or the engine cannot
be instantiated — and in every such failure case the worker thread is not
started (`mRunning = false`; for the exception cases no backend exists at
all). -/
theorem build_validation (env : Env) (b : BuilderState) :
    (b.hasCallback = false → ∃ e, build env b = Except.error e) ∧
    (b.languageModels b.initialLanguage = none → ∃ e, build env b = Except.error e) ∧
    (∀ path, b.hasCallback = true → b.languageModels b.initialLanguage = some path →
      env.fileExists path = false →
      ∃ s, build env b = Except.ok s ∧ s.mRunning = false ∧ s.mCtx = none ∧
        s.mErrLog ≠ []) ∧
    (∀ path, b.hasCallback = true → b.languageModels b.initialLanguage = some path →
      env.fileExists path = true → env.whisperInit path = none →
      ∃ s, build env b = Except.ok s ∧ s.mRunning = false ∧ s.mCtx = none ∧
        s.mErrLog ≠ []) := by
  refine ⟨?_, ?_, ?_, ?_⟩
  · intro h
    rw [build, if_pos h]
    exact ⟨_, rfl⟩
  · intro h
    by_cases hcb : b.hasCallback = false
    · rw [build, if_pos hcb]
      exact ⟨_, rfl⟩
    · rw [build, if_neg hcb]
      by_cases hme : modelsEmpty b.languageModels = true
      · rw [if_pos hme]
        exact ⟨_, rfl⟩
      · rw [if_neg hme, if_pos h]
        exact ⟨_, rfl⟩
  · intro path hcb hlook hf
    rw [build, if_neg (by rw [hcb]; exact (by decide)),
      if_neg (by rw [modelsEmpty_lookup _ _ _ hlook]; exact (by decide)),
      if_neg (by rw [hlook]; exact fun hcon => Option.noConfusion hcon)]
    simp only [implConstruct, initWhisper, buildModelPath, mkImplFromModels]
    rw [if_pos trivial, hlook]
    dsimp only
    rw [if_pos hf]
    dsimp only [startImpl]
    rw [if_pos (Or.inr rfl)]
    exact ⟨_, rfl, rfl, rfl, by simp⟩
  · intro path hcb hlook ht hw
    rw [build, if_neg (by rw [hcb]; exact (by decide)),
      if_neg (by rw [modelsEmpty_lookup _ _ _ hlook]; exact (by decide)),
      if_neg (by rw [hlook]; exact fun hcon => Option.noConfusion hcon)]
    simp only [implConstruct, initWhisper, buildModelPath, mkImplFromModels]
    rw [if_pos trivial, hlook]
    dsimp only
    rw [if_neg (by rw [ht]; exact (by decide)), hw]
    dsimp only [startImpl]
    rw [if_pos (Or.inr rfl)]
    exact ⟨_, rfl, rfl, rfl, by simp⟩

/-- A builder configuration with a callback and one model per language. -/
def demoBuilder : BuilderState :=
  { hasCallback := true
    initialLanguage := Language.English
    languageModels := fun _ => some "m.bin" }

/-- A builder configuration with no callback set. -/
def noCallbackBuilder : BuilderState :=
  { demoBuilder with hasCallback := false }

/-- Witness for `build_validation` at concrete inputs. -/
theorem build_validation_wit :
    (∃ e, build demoEnv noCallbackBuilder = Except.error e) ∧
    ∃ s, build noFileEnv demoBuilder = Except.ok s ∧ s.mRunning = false ∧
      s.mCtx = none ∧ s.mErrLog ≠ [] :=
  ⟨(build_validation demoEnv noCallbackBuilder).1 rfl,
   (build_validation noFileEnv demoBuilder).2.2.1 "m.bin" rfl rfl rfl⟩

end Asr
